import Mathlib

/-!
Verification development for the stream-decoding text generation engine in
`basaran/model.py` (class `StreamModel`).

The Python source is shallowly embedded below:
  * token ids are integers (`ℤ`, matching Python/torch int64 semantics);
  * tensors of scores are lists of rationals (`ℚ`); the external numeric
    collaborators (`torch.softmax`, `torch.log`, the transformers logits
    processors, the tokenizer) are fields of a `ModelEnv` record since their
    implementations live outside this repository;
  * the decoding loop of `StreamModel.generate` is a fuel-indexed recursion;
    the fuel `max_new_tokens + 1` never runs out because the length cap forces
    every status non-positive after at most `max_new_tokens` iterations;
  * randomness of `torch.multinomial` is an explicit sampler argument `rng`;
  * fallible forward passes return `Except Nat`, the retry wrapper of
    `StreamModel.infer` is an explicit attempt counter.
-/

namespace Basaran

/-! ## Generic helpers -/

/-- Python `round(x, 8)`: scale by `10 ^ 8`, round to the nearest integer and
scale back (the source rounds a float; ties are irrelevant to the claims). -/
def round8 (q : ℚ) : ℚ := (round (q * 10 ^ 8) : ℤ) / 10 ^ 8

/-- Index of the largest entry of a score list, the first one on ties
(`torch.argmax` over the vocabulary dimension). Returns `0` on an empty list
(a zero-size vocabulary cannot arise from a real model). -/
def argmaxIdx (l : List ℚ) : Nat :=
  ((l.enum.foldl
    (fun best p =>
      match best with
      | none => some p
      | some b => if p.2 > b.2 then some p else best)
    none).map (fun p => p.1)).getD 0

/-- The largest element of a pair list, by score, first index on ties. -/
def maxPair (pairs : List (Nat × ℚ)) : Option (Nat × ℚ) :=
  pairs.foldl
    (fun best p =>
      match best with
      | none => some p
      | some b => if p.2 > b.2 then some p else best)
    none

/-- Select the `k` highest-score `(index, score)` pairs, in descending score
order, earlier indices first on ties (`torch.topk`). -/
def topkSelect : Nat → List (Nat × ℚ) → List (Nat × ℚ)
  | 0, _ => []
  | k + 1, pairs =>
    match maxPair pairs with
    | none => []
    | some p => p :: topkSelect k (pairs.eraseP (fun q => q.1 = p.1))

/-- `probs.topk(k)`: the top-`k` probabilities together with their token
indices. -/
def topk (k : Nat) (l : List ℚ) : List ℚ × List ℤ :=
  let ps := topkSelect k l.enum
  (ps.map (fun p => p.2), ps.map (fun p => (p.1 : ℤ)))

/-- `tensor.max()` of a status vector; the decoding loop only evaluates it on
batches of size at least one (an empty batch would raise in torch; we return
`0`, which also stops the loop). -/
def statusMax : List ℤ → ℤ
  | [] => 0
  | a :: as => as.foldl max a

/-- Insertion into a Python `dict` held as an association list in insertion
order: an existing key keeps its position and gets the new value, a new key is
appended. -/
def dinsert {κ : Type} [DecidableEq κ] (d : List (κ × ℚ)) (k : κ) (v : ℚ) :
    List (κ × ℚ) :=
  if d.any (fun kv => kv.1 = k) then
    d.map (fun kv => if kv.1 = k then (k, v) else kv)
  else d ++ [(k, v)]

/-- Python `dict(pairs)`: left-to-right insertion, later values win. -/
def dictOfPairs {κ : Type} [DecidableEq κ] (ps : List (κ × ℚ)) : List (κ × ℚ) :=
  ps.foldl (fun d kv => dinsert d kv.1 kv.2) []

/-- Python `d[k]` lookup. -/
def dlookup {κ : Type} [DecidableEq κ] (d : List (κ × ℚ)) (k : κ) : Option ℚ :=
  (d.find? (fun kv => kv.1 = k)).map (fun kv => kv.2)

/-! ## Generation configuration (`transformers.GenerationConfig` fields used
by the source) -/

/-- The `eos_token_id` field of a generation config may be missing, a single
integer, or a list of integers (`model.py` lines 202-204). -/
inductive EosField
  | none
  | int (e : ℤ)
  | list (es : List ℤ)
deriving DecidableEq, Repr

/-- Normalization performed at `model.py` lines 203-204: a single integer
becomes a one-element list. -/
def EosField.norm : EosField → Option (List ℤ)
  | .none => Option.none
  | .int e => some [e]
  | .list es => some es

/-- The slice of `GenerationConfig` the source reads. -/
structure GenConfig where
  min_new_tokens : Option ℤ
  max_new_tokens : ℤ
  temperature : Option ℚ
  top_p : Option ℚ
  pad_token_id : Option ℤ
  bos_token_id : Option ℤ
  eos_token_id : EosField
  decoder_start_token_id : Option ℤ
deriving Repr

/-- `config.update(**kwargs)` at `model.py` line 194: `StreamModel.generate`
always overrides these four fields (the deep copy of the shared config is
implicit in the functional embedding). -/
def GenConfig.update (base : GenConfig) (min_new max_new : ℤ) (temperature top_p : ℚ) :
    GenConfig :=
  { base with
    min_new_tokens := some min_new
    max_new_tokens := max_new
    temperature := some temperature
    top_p := some top_p }

/-! ## Logits processing pipeline (`StreamModel.logits_processor`,
`model.py` lines 144-174)

The three transformers processors are external library code; the embedding
records which processors are appended, with their construction arguments. -/

/-- A processor appended to the `LogitsProcessorList`. -/
inductive ProcTag
  | minNew (prompt_length_to_skip : Nat) (min_new_tokens : ℤ) (eos : EosField)
  | temperature (t : ℚ)
  | topP (p : ℚ)
deriving DecidableEq, Repr

/-- First pipeline stage (`model.py` lines 148-160): the min-new-tokens
processor, appended only if `config.min_new_tokens is not None and
config.min_new_tokens > 0 and config.eos_token_id is not None`. -/
def minNewSeg (config : GenConfig) (input_length : Nat) : List ProcTag :=
  match config.min_new_tokens with
  | some m =>
    if 0 < m ∧ config.eos_token_id ≠ EosField.none then
      [ProcTag.minNew input_length m config.eos_token_id]
    else []
  | none => []

/-- Second pipeline stage (`model.py` lines 162-168): the temperature warper,
appended only if `config.temperature is not None and config.temperature > 0
and config.temperature != 1.0`. -/
def temperatureSeg (config : GenConfig) : List ProcTag :=
  match config.temperature with
  | some t => if 0 < t ∧ t ≠ 1 then [ProcTag.temperature t] else []
  | none => []

/-- Third pipeline stage (`model.py` lines 170-172): the top-p warper,
appended only if `config.top_p is not None and config.top_p > 0 and
config.top_p < 1`. -/
def topPSeg (config : GenConfig) : List ProcTag :=
  match config.top_p with
  | some p => if 0 < p ∧ p < 1 then [ProcTag.topP p] else []
  | none => []

/-- `StreamModel.logits_processor`: append the min-new-tokens processor, the
temperature warper and the top-p warper, each under the source's condition. -/
def logits_processor (config : GenConfig) (input_length : Nat) : List ProcTag :=
  minNewSeg config input_length ++ temperatureSeg config ++ topPSeg config

/-! ## External collaborators -/

/-- The external collaborators of the engine: the tokenizer, the neural model
(whose forward pass may fail transiently, indexed by decode step and retry
attempt), the transformers processor semantics, and torch numerics. Error
codes are natural numbers. -/
structure ModelEnv where
  /-- `tokenizer.encode`. -/
  encode : String → List ℤ
  /-- `tokenizer.decode` of a single token id. -/
  decode : ℤ → String
  /-- `model.config.is_encoder_decoder`. -/
  isEncoderDecoder : Bool
  /-- `model.generation_config` (the per-call deep copy is implicit: the
  embedding never mutates it). -/
  genConfig : GenConfig
  /-- The decoder forward pass: given the decode step, the retry attempt and
  the running token history, either fail or return the next-position logits,
  one score row per replica. `prepare_inputs_for_generation` and the cache
  handed back through `past_key_values` are internal to the model collaborator
  and are absorbed into the dependence on the history and step index. -/
  fwd : Nat → Nat → List (List ℤ) → Except Nat (List (List ℚ))
  /-- The encoder-only forward pass of an encoder-decoder model, indexed by
  retry attempt. -/
  encFwd : Nat → List (List ℤ) → Except Nat Unit
  /-- Semantics of the transformers logits processors: `processor(input_ids,
  logits)` applied to the whole batch. -/
  applyProcessors : List ProcTag → List (List ℤ) → List (List ℚ) → List (List ℚ)
  /-- `torch.nn.functional.softmax(·, dim=-1)` on one score row. -/
  softmax : List ℚ → List ℚ
  /-- `torch.log` on one probability. -/
  log : ℚ → ℚ

/-- The external entropy source behind `torch.multinomial`: for a decode step
and a replica index it draws one token index from the replica's probability
row. -/
def Rng : Type := Nat → Nat → List ℚ → Nat

/-! ## Resilient inference invoker (`StreamModel.infer`,
`model.py` lines 176-182)

`@retry(stop=stop_after_attempt(5), wait=wait_fixed(1))` around one forward
call executed under `torch.inference_mode()`.  `retryGo outcomes left i` runs
attempt `i` with `left` attempts remaining (including the current one); it
returns the result, one `true` per forward call (the flag records that the
call ran with gradient tracking disabled), and the list of waits (in time
units) inserted between consecutive attempts. -/
def retryGo {α : Type} (outcomes : Nat → Except Nat α) :
    Nat → Nat → Except Nat α × List Bool × List Nat
  | 0, _ => (.error 0, [], [])
  | left + 1, i =>
    match outcomes i with
    | .ok a => (.ok a, [true], [])
    | .error e =>
      if left = 0 then (.error e, [true], [])
      else
        let rest := retryGo outcomes left (i + 1)
        (rest.1, true :: rest.2.1, 1 :: rest.2.2)

/-- `StreamModel.infer`: up to 5 attempts, fixed wait of 1 between attempts,
the last error propagates. -/
def infer {α : Type} (outcomes : Nat → Except Nat α) :
    Except Nat α × List Bool × List Nat :=
  retryGo outcomes 5 0

/-! ## Batched autoregressive generator (`StreamModel.generate`,
`model.py` lines 184-306) -/

/-- One yielded tuple `(tokens, token_logprobs, top_tokens, top_logprobs,
status)`. -/
structure StepResult where
  tokens : List ℤ
  token_logprobs : List ℚ
  top_tokens : List (List ℤ)
  top_logprobs : List (List ℚ)
  status : List ℤ
deriving DecidableEq, Repr

/-- The deterministic-decoding test of `model.py` lines 260-262:
`(top_p is not None and top_p <= 0) or (temperature is not None and
temperature <= 0)`. -/
def deterministicMode (config : GenConfig) : Bool :=
  (match config.top_p with
   | some p => decide (p ≤ 0)
   | none => false) ||
  (match config.temperature with
   | some t => decide (t ≤ 0)
   | none => false)

/-- Post-pipeline probabilities of one decode step: run the processor list on
the raw logits, then softmax each row (`model.py` lines 254-257). -/
def stepProbs (env : ModelEnv) (procs : List ProcTag) (history : List (List ℤ))
    (rawLogits : List (List ℚ)) : List (List ℚ) :=
  (env.applyProcessors procs history rawLogits).map env.softmax

/-- Token selection of `model.py` lines 259-265: arg-max in deterministic
mode, otherwise one multinomial draw per replica. -/
def chooseTokens (config : GenConfig) (rng : Rng) (stepIdx : Nat)
    (probs : List (List ℚ)) : List Nat :=
  if deterministicMode config then probs.map argmaxIdx
  else probs.enum.map (fun p => rng stepIdx p.1 p.2)

/-- Padding override of `model.py` lines 277-278:
`tokens * unfinished + pad_token_id * (1 - unfinished)` (elementwise, over
ℤ exactly as in torch). Skipped when no padding id is available. -/
def padOverride (padId : Option ℤ) (tokens unfinished : List ℤ) : List ℤ :=
  match padId with
  | none => tokens
  | some pad => tokens.zipWith (fun t u => t * u + pad * (1 - u)) unfinished

/-- `sum(tokens != i for i in eos_token_id)` for one token: the number of
configured eos ids the token differs from. -/
def notEosCount (eos : List ℤ) (t : ℤ) : ℤ :=
  eos.foldl (fun acc e => acc + if t ≠ e then 1 else 0) 0

/-- Eos bookkeeping of `model.py` lines 292-294:
`unfinished = unfinished.mul(not_eos.long())`, elementwise over the padded
tokens. -/
def updateUnfinished (eosIds : Option (List ℤ)) (unfinished tokens : List ℤ) :
    List ℤ :=
  match eosIds with
  | none => unfinished
  | some eos => unfinished.zipWith (fun u t => u * notEosCount eos t) tokens

/-- `input_ids.shape[-1]`: the (uniform) row length of the batch. -/
def histLen (history : List (List ℤ)) : Nat := (history.headD []).length

/-- The length-cap test of `model.py` line 298:
`input_ids.shape[-1] - input_length >= config.max_new_tokens` (Python integer
arithmetic, hence over ℤ). -/
def lengthCapReached (config : GenConfig) (input_length : Nat)
    (history : List (List ℤ)) : Bool :=
  decide ((histLen history : ℤ) - (input_length : ℤ) ≥ config.max_new_tokens)

/-- One iteration of the decoding loop (`model.py` lines 241-302): forward
pass through the retry wrapper, logits pipeline, token selection, log
probabilities, top-k diagnostics, padding override, history append, eos
bookkeeping and status computation. Returns the yielded tuple together with
the grown history and the updated `unfinished` vector. -/
def genStep (env : ModelEnv) (rng : Rng) (config : GenConfig)
    (procs : List ProcTag) (padId : Option ℤ) (eosIds : Option (List ℤ))
    (logprobs : Nat) (input_length : Nat) (stepIdx : Nat)
    (history : List (List ℤ)) (unfinished : List ℤ) :
    Except Nat (StepResult × List (List ℤ) × List ℤ) :=
  match (infer (fun att => env.fwd stepIdx att history)).1 with
  | .error e => .error e
  | .ok rawLogits =>
    let probs := stepProbs env procs history rawLogits
    let chosen := chooseTokens config rng stepIdx probs
    let token_logprobs :=
      probs.zipWith (fun ps c => env.log (ps.getD c 0 + 1 / 10 ^ 7)) chosen
    let top := probs.map (topk logprobs)
    let top_tokens := top.map (fun t => t.2)
    let top_logprobs :=
      top.map (fun t => t.1.map (fun v => env.log (v + 1 / 10 ^ 7)))
    let tokens := padOverride padId (chosen.map Int.ofNat) unfinished
    let history' := history.zipWith (fun h t => h ++ [t]) tokens
    let unfinished' := updateUnfinished eosIds unfinished tokens
    let status :=
      if lengthCapReached config input_length history' then
        unfinished'.map (fun u => 0 - u)
      else unfinished'
    .ok (⟨tokens, token_logprobs, top_tokens, top_logprobs, status⟩,
         history', unfinished')

/-- The `while True` loop of `model.py` lines 241-306, with explicit fuel.
A failing step contributes nothing: the stream ends with the propagated
error. After a successful step the loop stops as soon as `status.max() <= 0`.
The fuel `max_new_tokens + 1` chosen by `generate` is never exhausted, because
the cap forces every status non-positive after at most `max_new_tokens`
iterations. -/
def genLoop (env : ModelEnv) (rng : Rng) (config : GenConfig)
    (procs : List ProcTag) (padId : Option ℤ) (eosIds : Option (List ℤ))
    (logprobs : Nat) (input_length : Nat) :
    Nat → Nat → List (List ℤ) → List ℤ → List StepResult × Option Nat
  | 0, _, _, _ => ([], none)
  | fuel + 1, stepIdx, history, unfinished =>
    match genStep env rng config procs padId eosIds logprobs input_length
        stepIdx history unfinished with
    | .error e => ([], some e)
    | .ok (r, history', unfinished') =>
      if statusMax r.status ≤ 0 then ([r], none)
      else
        let rest := genLoop env rng config procs padId eosIds logprobs
          input_length fuel (stepIdx + 1) history' unfinished'
        (r :: rest.1, rest.2)

/-- Padding-id fallback of `model.py` lines 205-206: if no pad id is
configured but eos ids are, use the first eos id. (The source indexes
`eos_token_id[0]`; an empty configured eos list would raise there and is
rendered as `none`.) -/
def resolvePadTokenId (pad : Option ℤ) (eos : Option (List ℤ)) : Option ℤ :=
  match pad, eos with
  | none, some es => es.head?
  | p, _ => p

/-- The seed token used for an empty prompt (`model.py` lines 209-212):
the first eos id if any is configured, otherwise the `new_ones` placeholder
token `1`. (An empty configured eos list would raise in the source.) -/
def seedToken (eos : Option (List ℤ)) : ℤ :=
  match eos with
  | some (e :: _) => e
  | _ => 1

/-- Empty-prompt seeding of `model.py` lines 208-213: a zero-length prompt is
replaced by one seed token per replica and the input length becomes 1.
Returns the (possibly re-seeded) history and input length. -/
def seedInputIds (input_ids : List (List ℤ)) (eos : Option (List ℤ)) :
    List (List ℤ) × Nat :=
  if histLen input_ids = 0 then
    (List.replicate input_ids.length [seedToken eos], 1)
  else (input_ids, histLen input_ids)

/-- `StreamModel.generate`: merge the call overrides into a copy of the
model's generation config, collect special ids, seed an empty prompt, handle
the encoder-decoder variant, build the logits pipeline and run the decode
loop. Returns the yielded tuples in order plus the terminal inference error,
if any. -/
def generate (env : ModelEnv) (rng : Rng) (input_ids : List (List ℤ))
    (logprobs : Nat) (min_new_tokens max_new_tokens : ℤ)
    (temperature top_p : ℚ) : List StepResult × Option Nat :=
  let batch_size := input_ids.length
  let config := env.genConfig.update min_new_tokens max_new_tokens
    temperature top_p
  let eosIds := config.eos_token_id.norm
  let padId := resolvePadTokenId config.pad_token_id eosIds
  let seeded := seedInputIds input_ids eosIds
  if env.isEncoderDecoder then
    match (infer (fun att => env.encFwd att seeded.1)).1 with
    | .error e => ([], some e)
    | .ok _ =>
      -- Reinitialize the decoder input to a single start token; a model with
      -- neither a decoder-start nor a bos id would raise in the source.
      let dstart :=
        ((config.decoder_start_token_id).orElse
          (fun _ => config.bos_token_id)).getD 1
      let history := List.replicate batch_size [dstart]
      let procs := logits_processor config 1
      genLoop env rng config procs padId eosIds logprobs 1
        (config.max_new_tokens.toNat + 1) 0 history
        (List.replicate batch_size 1)
  else
    let procs := logits_processor config seeded.2
    genLoop env rng config procs padId eosIds logprobs seeded.2
      (config.max_new_tokens.toNat + 1) 0 seeded.1
      (List.replicate batch_size 1)

/-! ## Sampler and log-probability collector (`StreamModel.sample`,
`model.py` lines 125-142) -/

/-- The diagnostics bundle returned by `StreamModel.sample`: the decoded
chosen token, its rounded log probability, and the text-keyed map of
alternatives. -/
structure SampleOut where
  token : String
  token_logprob : ℚ
  top_logprobs : List (String × ℚ)
deriving DecidableEq, Repr

/-- `StreamModel.sample`: decode the chosen token and the top tokens, round
every log probability to 8 decimal digits, build the dict
`dict(zip(top_tokens, top_logprobs))` and overwrite-or-add the chosen token's
own entry. -/
def sample (decode : ℤ → String) (token : ℤ) (token_logprob : ℚ)
    (top_tokens : List ℤ) (top_logprobs : List ℚ) : SampleOut :=
  let tokenText := decode token
  let topTexts := top_tokens.map decode
  let tlp := round8 token_logprob
  let tlps := top_logprobs.map round8
  let d := dictOfPairs (topTexts.zip tlps)
  ⟨tokenText, tlp, dinsert d tokenText tlp⟩

/-- Formalisation of the spec's words for claim C5: the diagnostics map as an
id-keyed dict, "merge the chosen token's own (id → log-probability) pair into
the top-k map". Compared against `sample`, which keys by decoded text. -/
def sampleSpecIdKeyed (token : ℤ) (token_logprob : ℚ)
    (top_tokens : List ℤ) (top_logprobs : List ℚ) : List (ℤ × ℚ) :=
  dinsert (dictOfPairs (top_tokens.zip (top_logprobs.map round8)))
    token (round8 token_logprob)

/-! ## Stream orchestrator (`StreamModel.__call__`,
`model.py` lines 31-118) -/

/-- Finish reason of one replica. -/
inductive FinishReason
  | stop
  | length
deriving DecidableEq, Repr

/-- Modelled from the spec: the incremental text decoder collaborator
(`StreamDecoder` from `basaran/decoder.py`, which is not part of the provided
sources). Per the spec it is a per-replica stateful object with
`decode(token-id) -> text fragment` and a stable `start` offset; its state is
determined by the tokens it has consumed, so it is embedded as a pair of pure
functions of the consumed-token history. -/
structure DecoderEnv where
  decodeFrag : List ℤ → ℤ → String
  startOff : List ℤ → Nat

/-- Modelled from the spec: the choice formatter (`map_choice` from
`basaran/choice.py`, not part of the provided sources): `(text,
replica_index, text_offset, finish_reason?, token?, token_logprob?,
top_logprobs?) -> response unit`. A missing diagnostics bundle leaves the
three sample fields unset, as `**samples` with an empty dict does. -/
structure Choice where
  text : String
  index : Nat
  text_offset : Nat
  finish_reason : Option FinishReason
  token : Option String
  token_logprob : Option ℚ
  top_logprobs : Option (List (String × ℚ))
deriving DecidableEq, Repr

/-- Build one `Choice` from its parts. -/
def map_choice (text : String) (index : Nat) (text_offset : Nat)
    (finish_reason : Option FinishReason) (samples : Option SampleOut) :
    Choice :=
  ⟨text, index, text_offset, finish_reason,
   samples.map (fun s => s.token),
   samples.map (fun s => s.token_logprob),
   samples.map (fun s => s.top_logprobs)⟩

/-- The prompt argument of `StreamModel.__call__`: a string, a 1-dimensional
tensor of token ids, a tensor of a different dimension, or a value of any
other type. -/
inductive Prompt
  | str (s : String)
  | tensor1 (ids : List ℤ)
  | tensorN (rows : List (List ℤ))
  | other
deriving Repr

/-- Prompt validation of `model.py` lines 43-48: a string is tokenized, a
1-d tensor is accepted as is, anything else raises
`TypeError("prompt must be a string or a 1-d tensor")` (rendered as
`.error ()`). -/
def promptInputIds (env : ModelEnv) : Prompt → Except Unit (List ℤ)
  | .str s => .ok (env.encode s)
  | .tensor1 ids => .ok ids
  | .tensorN _ => .error ()
  | .other => .error ()

/-- The finish-reason update of `model.py` lines 88-95 for one whole step:
an already-set reason is kept (`if finish_reasons[i]: continue`), an unset
one becomes `stop` on status 0 and `length` on status -1. Each index is
updated independently, exactly as the source's per-index loop does. -/
def updateFR (n : Nat) (fr : List (Option FinishReason)) (status : List ℤ) :
    List (Option FinishReason) :=
  (List.range n).map (fun i =>
    match fr.getD i none with
    | some r => some r
    | none =>
      if status.getD i 1 = 0 then some FinishReason.stop
      else if status.getD i 1 = -1 then some FinishReason.length
      else none)

/-- The finish-reason vector after processing the first `t` step statuses,
starting from the `[None] * n` created at `model.py` line 57. -/
def frAt (n : Nat) (statuses : List (List ℤ)) (t : Nat) :
    List (Option FinishReason) :=
  (statuses.take t).foldl (updateFR n) (List.replicate n none)

/-- Choices emitted for one generation step (`model.py` lines 88-118):
replicas whose finish reason was already set are skipped; for the others the
finish reason is updated, diagnostics are sampled if requested, the token is
decoded through the replica's own decoder and one choice is emitted.
`consumed` is the token history each replica's decoder has consumed. -/
def stepChoices (env : ModelEnv) (dec : DecoderEnv) (n logprobs : Nat)
    (fr : List (Option FinishReason)) (consumed : List (List ℤ))
    (r : StepResult) :
    List (Option FinishReason) × List (List ℤ) × List Choice :=
  let fr' := updateFR n fr r.status
  let emitted := (List.range n).filterMap (fun i =>
    match fr.getD i none with
    | some _ => none
    | none =>
      let tok := r.tokens.getD i 0
      let samples :=
        if 0 < logprobs then
          some (sample env.decode tok (r.token_logprobs.getD i 0)
            (r.top_tokens.getD i []) (r.top_logprobs.getD i []))
        else none
      let ci := consumed.getD i []
      some (i, map_choice (dec.decodeFrag ci tok) i
        (dec.startOff (ci ++ [tok])) (fr'.getD i none) samples))
  let consumed' := (List.range n).map (fun i =>
    match fr.getD i none with
    | some _ => consumed.getD i []
    | none => consumed.getD i [] ++ [r.tokens.getD i 0])
  (fr', consumed', emitted.map (fun p => p.2))

/-- The echo phase of `model.py` lines 64-71: for every prompt token,
diagnostics are sampled once (`sample(token, 0, [], [])`) when requested, and
one choice per replica is yielded when `echo` is set. Every replica's decoder
consumes every prompt token regardless of `echo`. -/
def echoChoices (env : ModelEnv) (dec : DecoderEnv) (n logprobs : Nat)
    (echo : Bool) (input_ids : List ℤ) : List Choice :=
  if echo then
    (input_ids.enum.map (fun p =>
      let samples :=
        if 0 < logprobs then some (sample env.decode p.2 0 [] []) else none
      (List.range n).map (fun i =>
        map_choice (dec.decodeFrag (input_ids.take p.1) p.2) i
          (dec.startOff (input_ids.take (p.1 + 1))) none samples))).flatten
  else []

/-- The executed body of `StreamModel.__call__`: prompt validation, argument
clamping, echo phase, then the generation loop mapped into choices. The
returned value is the full choice stream together with the terminal inference
error, if generation aborted. A `TypeError` from prompt validation is the
`.error ()` result. -/
def callBody (env : ModelEnv) (dec : DecoderEnv) (rng : Rng) (prompt : Prompt)
    (min_tokens max_tokens : ℤ) (temperature top_p : ℚ) (n logprobs : ℤ)
    (echo : Bool) : Except Unit (List Choice × Option Nat) :=
  match promptInputIds env prompt with
  | .error e => .error e
  | .ok input_ids =>
    let min_tokens := max min_tokens 0
    let max_tokens := max max_tokens 1
    let n := (max n 1).toNat
    let logprobs := (max logprobs 0).toNat
    let echoed := echoChoices env dec n logprobs echo input_ids
    let gen := generate env rng (List.replicate n input_ids) logprobs
      min_tokens max_tokens temperature top_p
    let folded := gen.1.foldl
      (fun acc r =>
        let s := stepChoices env dec n logprobs acc.1 acc.2.1 r
        (s.1, s.2.1, acc.2.2 ++ s.2.2))
      (List.replicate n none, List.replicate n input_ids, [])
    .ok (echoed ++ folded.2.2, gen.2)

/-- The suspended generator returned by calling `StreamModel.__call__`.
Because the body of `__call__` contains `yield`, Python builds this object
without executing one line of the body; the body only runs when the stream is
first pulled. -/
structure GenInvocation where
  prompt : Prompt
  min_tokens : ℤ
  max_tokens : ℤ
  temperature : ℚ
  top_p : ℚ
  n : ℤ
  logprobs : ℤ
  echo : Bool

/-- Invoking the generator function `StreamModel.__call__`: it always
succeeds and returns the suspended generator — no validation runs here. -/
def callInvoke (prompt : Prompt) (min_tokens max_tokens : ℤ)
    (temperature top_p : ℚ) (n logprobs : ℤ) (echo : Bool) : GenInvocation :=
  ⟨prompt, min_tokens, max_tokens, temperature, top_p, n, logprobs, echo⟩

/-- Pulling the lazy stream: the generator body runs. -/
def genPull (env : ModelEnv) (dec : DecoderEnv) (rng : Rng)
    (g : GenInvocation) : Except Unit (List Choice × Option Nat) :=
  callBody env dec rng g.prompt g.min_tokens g.max_tokens g.temperature
    g.top_p g.n g.logprobs g.echo

/-- A prompt that is neither a string nor a 1-d tensor. -/
def malformedPrompt : Prompt → Bool
  | .str _ => false
  | .tensor1 _ => false
  | .tensorN _ => true
  | .other => true

/-! ## Concrete instances used by witnesses and counterexamples -/

/-- A concrete generation config: defaults matching the call-site overrides,
eos id 9. -/
def cfgW : GenConfig :=
  { min_new_tokens := Option.none
    max_new_tokens := 16
    temperature := some 1
    top_p := some 1
    pad_token_id := Option.none
    bos_token_id := Option.none
    eos_token_id := EosField.list [9]
    decoder_start_token_id := Option.none }

/-- A concrete environment over a 10-token vocabulary whose model always puts
its probability mass on token 2 (never the eos id 9). The external numeric
collaborators are instantiated with transparent functions. -/
def envW : ModelEnv :=
  { encode := fun _ => [7, 8]
    decode := fun _ => "x"
    isEncoderDecoder := false
    genConfig := cfgW
    fwd := fun _ _ _ => .ok [[0, 0, 5, 0, 0, 0, 0, 0, 0, 0]]
    encFwd := fun _ _ => .ok ()
    applyProcessors := fun _ _ ls => ls
    softmax := id
    log := id }

/-- Like `envW` but the model always selects the eos token 9. -/
def envC1 : ModelEnv :=
  { envW with fwd := fun _ _ _ => .ok [[0, 0, 0, 0, 0, 0, 0, 0, 0, 5]] }

/-- Like `envW` but with eos id 3, for the empty-prompt scenario. -/
def envC7 : ModelEnv :=
  { envW with genConfig := { cfgW with eos_token_id := EosField.list [3] } }

/-- A concrete incremental decoder. -/
def decW : DecoderEnv :=
  { decodeFrag := fun _ _ => "t", startOff := fun l => l.length }

/-- A concrete entropy source. -/
def rngW : Rng := fun _ _ _ => 2

/-- A different concrete entropy source. -/
def rngW2 : Rng := fun _ _ _ => 3

/-! ## Helper lemmas -/

lemma listGetD_map {α β : Type} (f : α → β) (l : List α) (da : α) (db : β) :
    ∀ i : Nat, i < l.length → (l.map f).getD i db = f (l.getD i da) := by
  induction l with
  | nil => intro i h; exact absurd h (by simp)
  | cons a as ih =>
    intro i h
    cases i with
    | zero => rfl
    | succ j => exact ih j (by simpa using h)

lemma listGetD_zipWith {α β γ : Type} (f : α → β → γ) (da : α) (db : β)
    (dc : γ) :
    ∀ (a : List α) (b : List β) (i : Nat), i < a.length → i < b.length →
      (List.zipWith f a b).getD i dc = f (a.getD i da) (b.getD i db) := by
  intro a
  induction a with
  | nil => intro b i h; exact absurd h (by simp)
  | cons x xs ih =>
    intro b i ha hb
    cases b with
    | nil => exact absurd hb (by simp)
    | cons y ys =>
      cases i with
      | zero => rfl
      | succ j => exact ih ys j (by simpa using ha) (by simpa using hb)

lemma foldl_max_le {c : ℤ} :
    ∀ (l : List ℤ) (a : ℤ), a ≤ c → (∀ x ∈ l, x ≤ c) → l.foldl max a ≤ c := by
  intro l
  induction l with
  | nil => intro a ha _; exact ha
  | cons x xs ih =>
    intro a ha hl
    exact ih (max a x) (max_le ha (hl x (by simp)))
      (fun y hy => hl y (by simp [hy]))

lemma statusMax_nonpos (l : List ℤ) (h : ∀ x ∈ l, x ≤ 0) : statusMax l ≤ 0 := by
  cases l with
  | nil => simp [statusMax]
  | cons a as =>
    exact foldl_max_le as a (h a (by simp)) (fun x hx => h x (by simp [hx]))

/-! ## Claim C3 -/

/-- C3 (counterexample): `StreamModel.__call__` contains `yield`, so it is a
generator function: invoking it with a malformed prompt succeeds and returns
the suspended generator, and the `TypeError` is only raised when the lazy
stream is first pulled. This contradicts the claim that the error is
"reported synchronously to the caller" and "not delivered inside the lazy
stream". -/
theorem C3_counterexample :
    callInvoke Prompt.other 0 16 1 1 1 0 false =
      { prompt := Prompt.other, min_tokens := 0, max_tokens := 16,
        temperature := 1, top_p := 1, n := 1, logprobs := 0, echo := false } ∧
    genPull envW decW rngW (callInvoke Prompt.other 0 16 1 1 1 0 false) =
      .error () :=
  ⟨rfl, rfl⟩

/-- C3 (amended): if the prompt is neither a string nor a 1-d tensor, the
`TypeError` is raised on the first pull of the lazy stream, before any model
invocation (the outcome does not depend on the model, decoder or entropy
collaborators) and before any element of the stream is produced. It is not
raised synchronously at invocation time, because `__call__` is a generator
function. -/
theorem C3_lazy_type_error_amended (env env' : ModelEnv)
    (dec dec' : DecoderEnv) (rng rng' : Rng) (p : Prompt) (minT maxT : ℤ)
    (t tp : ℚ) (n lp : ℤ) (echo : Bool) (h : malformedPrompt p = true) :
    callBody env dec rng p minT maxT t tp n lp echo = .error () ∧
    callBody env dec rng p minT maxT t tp n lp echo =
      callBody env' dec' rng' p minT maxT t tp n lp echo := by
  cases p <;> simp [malformedPrompt] at h <;>
    simp [callBody, promptInputIds]

/-- Witness for the amended C3. -/
theorem C3_lazy_type_error_amended_witness :
    callBody envW decW rngW Prompt.other 0 16 1 1 1 0 false = .error () :=
  (C3_lazy_type_error_amended envW envW decW decW rngW rngW Prompt.other
    0 16 1 1 1 0 false (by decide)).1

/-! ## Claim C4 -/

/-- Membership characterization for the first pipeline stage. -/
lemma mem_minNewSeg (config : GenConfig) (il : Nat) (x : ProcTag) :
    x ∈ minNewSeg config il ↔
      ∃ m, config.min_new_tokens = some m ∧ 0 < m ∧
        config.eos_token_id ≠ EosField.none ∧
        x = ProcTag.minNew il m config.eos_token_id := by
  unfold minNewSeg
  cases h : config.min_new_tokens with
  | none => simp
  | some m =>
    dsimp only
    split_ifs with hc
    · simp only [List.mem_singleton]
      constructor
      · intro hx; exact ⟨m, rfl, hc.1, hc.2, hx⟩
      · rintro ⟨m', hm', _, _, hx⟩; cases hm'; exact hx
    · simp only [List.not_mem_nil, false_iff, not_exists]
      rintro m' ⟨hm', h1, h2, _⟩
      cases hm'; exact hc ⟨h1, h2⟩

/-- Membership characterization for the second pipeline stage. -/
lemma mem_temperatureSeg (config : GenConfig) (x : ProcTag) :
    x ∈ temperatureSeg config ↔
      ∃ t, config.temperature = some t ∧ 0 < t ∧ t ≠ 1 ∧
        x = ProcTag.temperature t := by
  unfold temperatureSeg
  cases h : config.temperature with
  | none => simp
  | some t =>
    dsimp only
    split_ifs with hc
    · simp only [List.mem_singleton]
      constructor
      · intro hx; exact ⟨t, rfl, hc.1, hc.2, hx⟩
      · rintro ⟨t', ht', _, _, hx⟩; cases ht'; exact hx
    · simp only [List.not_mem_nil, false_iff, not_exists]
      rintro t' ⟨ht', h1, h2, _⟩
      cases ht'; exact hc ⟨h1, h2⟩

/-- Membership characterization for the third pipeline stage. -/
lemma mem_topPSeg (config : GenConfig) (x : ProcTag) :
    x ∈ topPSeg config ↔
      ∃ p, config.top_p = some p ∧ 0 < p ∧ p < 1 ∧ x = ProcTag.topP p := by
  unfold topPSeg
  cases h : config.top_p with
  | none => simp
  | some p =>
    dsimp only
    split_ifs with hc
    · simp only [List.mem_singleton]
      constructor
      · intro hx; exact ⟨p, rfl, hc.1, hc.2, hx⟩
      · rintro ⟨p', hp', _, _, hx⟩; cases hp'; exact hx
    · simp only [List.not_mem_nil, false_iff, not_exists]
      rintro p' ⟨hp', h1, h2, _⟩
      cases hp'; exact hc ⟨h1, h2⟩

/-- Membership characterization for the logits pipeline. -/
lemma mem_logits_processor (config : GenConfig) (il : Nat) (x : ProcTag) :
    x ∈ logits_processor config il ↔
      ((∃ m, config.min_new_tokens = some m ∧ 0 < m ∧
         config.eos_token_id ≠ EosField.none ∧
         x = ProcTag.minNew il m config.eos_token_id) ∨
       (∃ t, config.temperature = some t ∧ 0 < t ∧ t ≠ 1 ∧
         x = ProcTag.temperature t) ∨
       (∃ p, config.top_p = some p ∧ 0 < p ∧ p < 1 ∧ x = ProcTag.topP p)) := by
  simp [logits_processor, List.mem_append, mem_minNewSeg, mem_temperatureSeg,
    mem_topPSeg]

/-- C4: the pipeline built by `StreamModel.logits_processor` consists of at
most three processors in the fixed order min-new-tokens, temperature, top-p;
the min-new-tokens processor is present exactly when `min_new_tokens > 0` and
an eos id is configured, the temperature warper exactly when `temperature` is
set, positive and not 1, and the top-p warper exactly when `0 < top_p < 1`;
in particular `top_p = 1.0` exactly disables the nucleus filter. -/
theorem C4_logits_pipeline (config : GenConfig) (input_length : Nat) :
    (∃ l₁ l₂ l₃,
      logits_processor config input_length = l₁ ++ l₂ ++ l₃ ∧
      (l₁ = [] ∨ ∃ m, l₁ = [ProcTag.minNew input_length m
        config.eos_token_id]) ∧
      (l₂ = [] ∨ ∃ t, l₂ = [ProcTag.temperature t]) ∧
      (l₃ = [] ∨ ∃ p, l₃ = [ProcTag.topP p])) ∧
    ((∃ m e, ProcTag.minNew input_length m e ∈
        logits_processor config input_length) ↔
      ((∃ m, config.min_new_tokens = some m ∧ 0 < m) ∧
        config.eos_token_id ≠ EosField.none)) ∧
    ((∃ t, ProcTag.temperature t ∈ logits_processor config input_length) ↔
      (∃ t, config.temperature = some t ∧ 0 < t ∧ t ≠ 1)) ∧
    ((∃ p, ProcTag.topP p ∈ logits_processor config input_length) ↔
      (∃ p, config.top_p = some p ∧ 0 < p ∧ p < 1)) ∧
    (config.top_p = some 1 →
      ∀ p, ProcTag.topP p ∉ logits_processor config input_length) := by
  refine ⟨?_, ?_, ?_, ?_, ?_⟩
  · refine ⟨_, _, _, rfl, ?_, ?_, ?_⟩
    · unfold minNewSeg
      cases h : config.min_new_tokens with
      | none => exact Or.inl rfl
      | some m =>
        by_cases hc : 0 < m ∧ config.eos_token_id ≠ EosField.none
        · exact Or.inr ⟨m, by simp [hc]⟩
        · exact Or.inl (by simp [hc])
    · unfold temperatureSeg
      cases h : config.temperature with
      | none => exact Or.inl rfl
      | some t =>
        by_cases hc : 0 < t ∧ t ≠ 1
        · exact Or.inr ⟨t, by simp [hc]⟩
        · exact Or.inl (by simp [hc])
    · unfold topPSeg
      cases h : config.top_p with
      | none => exact Or.inl rfl
      | some p =>
        by_cases hc : 0 < p ∧ p < 1
        · exact Or.inr ⟨p, by simp [hc]⟩
        · exact Or.inl (by simp [hc])
  · constructor
    · rintro ⟨m, e, hm⟩
      rcases (mem_logits_processor config input_length _).mp hm with
        ⟨m', hm', h0, hne, heq⟩ | ⟨t, _, _, _, heq⟩ | ⟨p, _, _, _, heq⟩
      · cases heq; exact ⟨⟨_, hm', h0⟩, hne⟩
      · cases heq
      · cases heq
    · rintro ⟨⟨m, hm, h0⟩, hne⟩
      exact ⟨m, config.eos_token_id, (mem_logits_processor config
        input_length _).mpr (Or.inl ⟨m, hm, h0, hne, rfl⟩)⟩
  · constructor
    · rintro ⟨t, hm⟩
      rcases (mem_logits_processor config input_length _).mp hm with
        ⟨m', _, _, _, heq⟩ | ⟨t', ht', h0, h1, heq⟩ | ⟨p, _, _, _, heq⟩
      · cases heq
      · cases heq; exact ⟨_, ht', h0, h1⟩
      · cases heq
    · rintro ⟨t, ht, h0, h1⟩
      exact ⟨t, (mem_logits_processor config input_length _).mpr
        (Or.inr (Or.inl ⟨t, ht, h0, h1, rfl⟩))⟩
  · constructor
    · rintro ⟨p, hm⟩
      rcases (mem_logits_processor config input_length _).mp hm with
        ⟨m', _, _, _, heq⟩ | ⟨t, _, _, _, heq⟩ | ⟨p', hp', h0, h1, heq⟩
      · cases heq
      · cases heq
      · cases heq; exact ⟨_, hp', h0, h1⟩
    · rintro ⟨p, hp, h0, h1⟩
      exact ⟨p, (mem_logits_processor config input_length _).mpr
        (Or.inr (Or.inr ⟨p, hp, h0, h1, rfl⟩))⟩
  · intro h1 p hp
    rcases (mem_logits_processor config input_length _).mp hp with
      ⟨m', _, _, _, heq⟩ | ⟨t, _, _, _, heq⟩ | ⟨p', hp', h0, hlt, heq⟩
    · cases heq
    · cases heq
    · cases heq
      rw [h1] at hp'
      cases hp'
      exact absurd hlt (by norm_num)

/-- Witness for C4: with top_p strictly inside (0,1) the nucleus filter is
active. -/
theorem C4_logits_pipeline_witness :
    ∃ p, ProcTag.topP p ∈
      logits_processor { cfgW with top_p := some (1 / 2) } 2 :=
  (C4_logits_pipeline { cfgW with top_p := some (1 / 2) } 2).2.2.2.1.mpr
    ⟨1 / 2, rfl, by norm_num, by norm_num⟩

/-! ## Claim C8 -/

/-- At least one forward call is made when attempts remain. -/
lemma retryGo_calls_pos {α : Type} (outcomes : Nat → Except Nat α)
    (left i : Nat) : 1 ≤ (retryGo outcomes (left + 1) i).2.1.length := by
  simp only [retryGo]
  cases h : outcomes i with
  | ok a => simp
  | error e =>
    split_ifs with hl
    · simp
    · simp

/-- The number of forward calls is bounded by the remaining attempts. -/
lemma retryGo_calls_le {α : Type} (outcomes : Nat → Except Nat α) :
    ∀ left i, (retryGo outcomes left i).2.1.length ≤ left := by
  intro left
  induction left with
  | zero => intro i; simp [retryGo]
  | succ l ih =>
    intro i
    simp only [retryGo]
    cases h : outcomes i with
    | ok a => simp
    | error e =>
      split_ifs with hl
      · simp
      · simpa using ih (i + 1)

/-- Every forward call runs with gradient tracking disabled. -/
lemma retryGo_calls_true {α : Type} (outcomes : Nat → Except Nat α) :
    ∀ left i, ∀ b ∈ (retryGo outcomes left i).2.1, b = true := by
  intro left
  induction left with
  | zero => intro i b hb; simp [retryGo] at hb
  | succ l ih =>
    intro i b hb
    simp only [retryGo] at hb
    cases h : outcomes i with
    | ok a => rw [h] at hb; simpa using hb
    | error e =>
      rw [h] at hb
      split_ifs at hb with hl
      · simpa using hb
      · rcases List.mem_cons.mp hb with hb | hb
        · exact hb
        · exact ih (i + 1) b hb

/-- The waits inserted between attempts: one fixed unit between each pair of
consecutive forward calls. -/
lemma retryGo_delays {α : Type} (outcomes : Nat → Except Nat α) :
    ∀ left i, (retryGo outcomes left i).2.2 =
      List.replicate ((retryGo outcomes left i).2.1.length - 1) 1 := by
  intro left
  induction left with
  | zero => intro i; simp [retryGo]
  | succ l ih =>
    intro i
    simp only [retryGo]
    cases h : outcomes i with
    | ok a => simp
    | error e =>
      split_ifs with hl
      · simp
      · obtain ⟨l', rfl⟩ : ∃ l', l = l' + 1 :=
          ⟨l - 1, by omega⟩
        have hpos := retryGo_calls_pos outcomes l' (i + 1)
        simp only [List.length_cons]
        rw [ih (i + 1)]
        obtain ⟨m, hm⟩ : ∃ m, (retryGo outcomes (l' + 1) (i + 1)).2.1.length =
            m + 1 := ⟨(retryGo outcomes (l' + 1) (i + 1)).2.1.length - 1,
              by omega⟩
        rw [hm]
        simp [List.replicate_succ]

/-- If every attempt in the window fails, the result is the last attempt's
error and all attempts are used. -/
lemma retryGo_all_error {α : Type} (outcomes : Nat → Except Nat α) :
    ∀ left i, 1 ≤ left →
      (∀ j, i ≤ j → j < i + left → ∃ e, outcomes j = .error e) →
      (retryGo outcomes left i).1 = outcomes (i + left - 1) ∧
        (retryGo outcomes left i).2.1.length = left := by
  intro left
  induction left with
  | zero => intro i h; omega
  | succ l ih =>
    intro i _ herr
    obtain ⟨e, he⟩ := herr i (le_refl i) (by omega)
    simp only [retryGo, he]
    cases l with
    | zero => simp [he]
    | succ l' =>
      have hrec := ih (i + 1) (by omega)
        (fun j hj hj' => herr j (by omega) (by omega))
      simp only [if_neg (Nat.succ_ne_zero l')]
      constructor
      · rw [hrec.1]; congr 1; omega
      · simp [hrec.2]

/-- If the first success is at attempt `m` inside the window, the result is
that success and exactly `m - i + 1` calls are made. -/
lemma retryGo_first_success {α : Type} (outcomes : Nat → Except Nat α) :
    ∀ left i m a, i ≤ m → m < i + left →
      (∀ j, i ≤ j → j < m → ∃ e, outcomes j = .error e) →
      outcomes m = .ok a →
      (retryGo outcomes left i).1 = .ok a ∧
        (retryGo outcomes left i).2.1.length = m - i + 1 := by
  intro left
  induction left with
  | zero => intro i m a h1 h2; omega
  | succ l ih =>
    intro i m a him hm herr hok
    by_cases hi : i = m
    · subst hi
      simp [retryGo, hok]
    · obtain ⟨e, he⟩ := herr i (le_refl i) (by omega)
      simp only [retryGo, he]
      have hl : l ≠ 0 := by omega
      simp only [if_neg hl]
      have hrec := ih (i + 1) m a (by omega) (by omega)
        (fun j hj hj' => herr j (by omega) hj') hok
      constructor
      · exact hrec.1
      · simp only [List.length_cons, hrec.2]
        omega

/-- C8: `StreamModel.infer` makes exactly one forward call per attempt, each
with gradient tracking disabled, uses at most 5 attempts with a fixed 1-unit
wait between consecutive attempts, stops at the first success, propagates the
final error when all 5 attempts fail, and a step whose forward pass fails
contributes no partial step result to the generation stream. -/
theorem C8_infer_retry :
    (∀ (α : Type) (outcomes : Nat → Except Nat α),
      (infer outcomes).2.1.length ≤ 5 ∧
      (∀ b ∈ (infer outcomes).2.1, b = true) ∧
      (infer outcomes).2.2 =
        List.replicate ((infer outcomes).2.1.length - 1) 1 ∧
      ((∀ j, j < 5 → ∃ e, outcomes j = .error e) →
        (infer outcomes).1 = outcomes 4 ∧ (infer outcomes).2.1.length = 5) ∧
      (∀ i a, i < 5 → (∀ j, j < i → ∃ e, outcomes j = .error e) →
        outcomes i = .ok a →
        (infer outcomes).1 = .ok a ∧ (infer outcomes).2.1.length = i + 1)) ∧
    (∀ (env : ModelEnv) (rng : Rng) (input : List (List ℤ)) (k : Nat)
      (minN maxN : ℤ) (t p : ℚ) (e : Nat),
      env.isEncoderDecoder = false →
      (∀ att h, env.fwd 0 att h = .error e) →
      generate env rng input k minN maxN t p = ([], some e)) := by
  constructor
  · intro α outcomes
    refine ⟨retryGo_calls_le outcomes 5 0, retryGo_calls_true outcomes 5 0,
      retryGo_delays outcomes 5 0, ?_, ?_⟩
    · intro herr
      have := retryGo_all_error outcomes 5 0 (by omega)
        (fun j hj hj' => herr j (by omega))
      exact ⟨this.1, this.2⟩
    · intro i a hi herr hok
      have h2 := retryGo_first_success outcomes 5 0 i a (by omega) (by omega)
        (fun j hj hj' => herr j hj') hok
      exact ⟨h2.1, by simp only [infer]; rw [h2.2]; omega⟩
  · intro env rng input k minN maxN t p e henc herr
    have hinf : (infer (fun att =>
        env.fwd 0 att (seedInputIds input
          ((env.genConfig.update minN maxN t p).eos_token_id.norm)).1)).1 =
        .error e := by
      have h5 := retryGo_all_error
        (fun att => env.fwd 0 att (seedInputIds input
          ((env.genConfig.update minN maxN t p).eos_token_id.norm)).1)
        5 0 (by omega)
        (fun j hj hj' => ⟨e, herr j _⟩)
      simp only [infer]
      rw [h5.1]
      exact herr _ _
    simp only [generate, henc, Bool.false_eq_true, if_false]
    have hfuel : ∃ F, (env.genConfig.update minN maxN t p).max_new_tokens.toNat
        + 1 = F + 1 := ⟨_, rfl⟩
    obtain ⟨F, hF⟩ := hfuel
    rw [hF]
    simp only [genLoop, genStep, hinf]

/-- Witness for C8: with an always-failing forward pass the stream is empty
and carries the final error. -/
theorem C8_infer_retry_witness :
    generate { envW with fwd := fun _ _ _ => .error 3 } rngW [[7]] 0 0 2 1 1 =
      ([], some 3) :=
  C8_infer_retry.2 { envW with fwd := fun _ _ _ => .error 3 } rngW [[7]] 0 0 2
    1 1 3 rfl (fun _ _ => rfl)

/-! ## Claims C1 and C9 -/

/-- With a single configured eos id, `not_eos` is the 0/1 indicator of the
token differing from it. -/
lemma notEosCount_single (e t : ℤ) :
    notEosCount [e] t = if t = e then 0 else 1 := by
  unfold notEosCount
  simp only [List.foldl_cons, List.foldl_nil, zero_add]
  by_cases h : t = e
  · simp [h]
  · simp [h]

/-- Inversion of a successful `genStep`: the step components in terms of the
returned raw logits. -/
lemma genStep_ok_elim (env : ModelEnv) (rng : Rng) (config : GenConfig)
    (procs : List ProcTag) (padId : Option ℤ) (eosIds : Option (List ℤ))
    (k il si : Nat) (history : List (List ℤ)) (unfinished : List ℤ)
    (r : StepResult) (h' : List (List ℤ)) (u' : List ℤ)
    (hok : genStep env rng config procs padId eosIds k il si history
      unfinished = .ok (r, h', u')) :
    ∃ raw, (infer (fun att => env.fwd si att history)).1 = .ok raw ∧
      r.tokens = padOverride padId
        ((chooseTokens config rng si (stepProbs env procs history raw)).map
          Int.ofNat) unfinished ∧
      r.token_logprobs = (stepProbs env procs history raw).zipWith
        (fun ps c => env.log (ps.getD c 0 + 1 / 10 ^ 7))
        (chooseTokens config rng si (stepProbs env procs history raw)) ∧
      r.top_logprobs = ((stepProbs env procs history raw).map (topk k)).map
        (fun t => t.1.map (fun v => env.log (v + 1 / 10 ^ 7))) ∧
      h' = history.zipWith (fun h t => h ++ [t]) r.tokens ∧
      u' = updateUnfinished eosIds unfinished r.tokens ∧
      r.status = (if lengthCapReached config il h' then
        u'.map (fun u => 0 - u) else u') := by
  cases hfw : (infer (fun att => env.fwd si att history)).1 with
  | error e' =>
    exfalso
    simp only [genStep, hfw] at hok
    cases hok
  | ok raw =>
    refine ⟨raw, rfl, ?_⟩
    simp only [genStep, hfw] at hok
    obtain ⟨h1, h2, h3⟩ : _ ∧ _ ∧ _ := by
      have := hok
      injection this with hpair
      injection hpair with ha hbc
      injection hbc with hb hc
      exact ⟨ha, hb, hc⟩
    subst h1 h2 h3
    exact ⟨rfl, rfl, rfl, rfl, rfl, rfl⟩

/-- C1 (counterexample): with a single eos id 9, prompt `[7]` and
`max_new_tokens = 1`, the model selects the eos token on the very step on
which the length cap is reached. The replica was still unfinished at the
start of that step and the cap is reached on it, so the claim predicts status
−1 (StoppedByLength); the code reports 0 (stop by eos), because the eos
update runs before the cap negation. -/
theorem C1_counterexample :
    (generate envC1 rngW [[7]] 0 0 1 0 1).1.map (fun r => r.status) = [[0]] ∧
    (generate envC1 rngW [[7]] 0 0 1 0 1).1.map (fun r => r.tokens) = [[9]] ∧
    lengthCapReached (envC1.genConfig.update 0 1 0 1) 1 [[7, 9]] = true ∧
    (0 : ℤ) ≠ -1 := by
  refine ⟨by decide, by decide, by decide, by decide⟩

/-- C1 (amended): for a decode step with a single configured eos id `e` and a
0/1 `unfinished` flag, the reported status is 0 exactly when the replica had
already stopped before the step or its emitted token equals `e` on this step
(also on the step reaching the length cap); it is 1 exactly when the cap is
not reached, the replica was live and its token is not `e`; and it is −1
exactly when the cap is reached, the replica was live and its token is not
`e`. In particular a live replica that emits the eos token on the cap step is
reported as 0, not −1. -/
theorem C1_status_codes_amended (env : ModelEnv) (rng : Rng)
    (config : GenConfig) (procs : List ProcTag) (padId : Option ℤ) (e : ℤ)
    (k il si : Nat) (history : List (List ℤ)) (unfinished : List ℤ)
    (r : StepResult) (h' : List (List ℤ)) (u' : List ℤ) (i : Nat)
    (hok : genStep env rng config procs padId (some [e]) k il si history
      unfinished = .ok (r, h', u'))
    (hi : i < unfinished.length) (hit : i < r.tokens.length)
    (hu : unfinished.getD i 0 = 0 ∨ unfinished.getD i 0 = 1) :
    (r.status.getD i 0 = 0 ↔
      (unfinished.getD i 0 = 0 ∨ r.tokens.getD i 0 = e)) ∧
    (r.status.getD i 0 = 1 ↔
      (lengthCapReached config il h' = false ∧ unfinished.getD i 0 = 1 ∧
        r.tokens.getD i 0 ≠ e)) ∧
    (r.status.getD i 0 = -1 ↔
      (lengthCapReached config il h' = true ∧ unfinished.getD i 0 = 1 ∧
        r.tokens.getD i 0 ≠ e)) := by
  obtain ⟨raw, hfw, htok, hlp, htop, hh, hup, hst⟩ :=
    genStep_ok_elim env rng config procs padId (some [e]) k il si history
      unfinished r h' u' hok
  have hulen : i < u'.length := by
    rw [hup]
    unfold updateUnfinished
    rw [List.length_zipWith]
    exact lt_min hi hit
  have hugetD : u'.getD i 0 =
      unfinished.getD i 0 * notEosCount [e] (r.tokens.getD i 0) := by
    rw [hup]
    unfold updateUnfinished
    exact listGetD_zipWith _ 0 0 0 unfinished r.tokens i hi hit
  have hstatus : r.status.getD i 0 =
      (if lengthCapReached config il h' then 0 - u'.getD i 0
       else u'.getD i 0) := by
    rw [hst]
    split_ifs with hcap
    · exact listGetD_map _ u' 0 0 i hulen
    · rfl
  rw [notEosCount_single] at hugetD
  cases hcap : lengthCapReached config il h' with
  | false =>
    rw [hcap] at hstatus
    simp only [Bool.false_eq_true, if_false] at hstatus
    rcases hu with hu | hu
    · have hv : u'.getD i 0 = 0 := by rw [hugetD, hu, zero_mul]
      have hs : r.status.getD i 0 = 0 := by rw [hstatus, hv]
      refine ⟨?_, ?_, ?_⟩ <;> rw [hs, hu] <;> simp
    · by_cases hte : r.tokens.getD i 0 = e
      · have hv : u'.getD i 0 = 0 := by rw [hugetD, hu, if_pos hte, mul_zero]
        have hs : r.status.getD i 0 = 0 := by rw [hstatus, hv]
        refine ⟨?_, ?_, ?_⟩ <;> rw [hs, hu] <;> simp [hte] <;> simpa using hte
      · have hv : u'.getD i 0 = 1 := by rw [hugetD, hu, if_neg hte, mul_one]
        have hs : r.status.getD i 0 = 1 := by rw [hstatus, hv]
        refine ⟨?_, ?_, ?_⟩ <;> rw [hs, hu] <;> simp [hte, hcap] <;> simpa using hte
  | true =>
    rw [hcap] at hstatus
    simp only [if_true] at hstatus
    rcases hu with hu | hu
    · have hv : u'.getD i 0 = 0 := by rw [hugetD, hu, zero_mul]
      have hs : r.status.getD i 0 = 0 := by rw [hstatus, hv]; rfl
      refine ⟨?_, ?_, ?_⟩ <;> rw [hs, hu] <;> simp
    · by_cases hte : r.tokens.getD i 0 = e
      · have hv : u'.getD i 0 = 0 := by rw [hugetD, hu, if_pos hte, mul_zero]
        have hs : r.status.getD i 0 = 0 := by rw [hstatus, hv]; rfl
        refine ⟨?_, ?_, ?_⟩ <;> rw [hs, hu] <;> simp [hte] <;> simpa using hte
      · have hv : u'.getD i 0 = 1 := by rw [hugetD, hu, if_neg hte, mul_one]
        have hs : r.status.getD i 0 = -1 := by rw [hstatus, hv]; rfl
        refine ⟨?_, ?_, ?_⟩ <;> rw [hs, hu] <;> simp [hte, hcap] <;> simpa using hte

/-- Witness for the amended C1: a live replica emitting a non-eos token on a
non-cap step is reported as 1. -/
theorem C1_status_codes_amended_witness :
    (1 : ℤ) = 1 ↔
      (lengthCapReached (envW.genConfig.update 0 16 1 1) 1 [[7, 2]] = false ∧
        (1 : ℤ) = 1 ∧ (2 : ℤ) ≠ 9) := by
  have h := C1_status_codes_amended envW rngW
    (envW.genConfig.update 0 16 1 1) [] (some 9) 9 0 1 0 [[7]] [1]
    { tokens := [2], token_logprobs := [5 + 1 / 10 ^ 7],
      top_tokens := [[]], top_logprobs := [[]], status := [1] }
    [[7, 2]] [1] 0 rfl (by decide) (by decide) (Or.inr (by decide))
  have h2 := h.2.1
  simpa using h2

/-- C9: when no pad id is configured but at least one eos id is, the first
eos id is silently used as the padding id, and on any decode step an
already-finished replica's sampled token is overridden with exactly that eos
id while the replica stays finished. -/
theorem C9_pad_falls_back_to_eos (env : ModelEnv) (rng : Rng)
    (config : GenConfig) (procs : List ProcTag) (e : ℤ) (es : List ℤ)
    (k il si : Nat) (history : List (List ℤ)) (unfinished : List ℤ)
    (r : StepResult) (h' : List (List ℤ)) (u' : List ℤ) (i : Nat)
    (hok : genStep env rng config procs
      (resolvePadTokenId Option.none (some (e :: es))) (some (e :: es)) k il
      si history unfinished = .ok (r, h', u'))
    (hi : i < unfinished.length) (hit : i < r.tokens.length)
    (hu : unfinished.getD i 0 = 0) :
    resolvePadTokenId Option.none (some (e :: es)) = some e ∧
    r.tokens.getD i 0 = e ∧
    u'.getD i 0 = 0 := by
  obtain ⟨raw, hfw, htok, hlp, htop, hh, hup, hst⟩ :=
    genStep_ok_elim env rng config procs
      (resolvePadTokenId Option.none (some (e :: es))) (some (e :: es)) k il
      si history unfinished r h' u' hok
  have hres : resolvePadTokenId Option.none (some (e :: es)) = some e := rfl
  have htok2 : r.tokens = List.zipWith (fun t u => t * u + e * (1 - u))
      ((chooseTokens config rng si (stepProbs env procs history raw)).map
        Int.ofNat) unfinished := by
    rw [htok, hres]
    rfl
  have hiA : i < ((chooseTokens config rng si
      (stepProbs env procs history raw)).map Int.ofNat).length := by
    have h2 := hit
    rw [htok2, List.length_zipWith] at h2
    exact (lt_min_iff.mp h2).1
  refine ⟨hres, ?_, ?_⟩
  · have hgD : r.tokens.getD i 0 =
        ((chooseTokens config rng si (stepProbs env procs history
          raw)).map Int.ofNat).getD i 0 * unfinished.getD i 0 +
          e * (1 - unfinished.getD i 0) := by
      rw [htok2]
      exact listGetD_zipWith _ 0 0 0 _ unfinished i hiA hi
    rw [hgD, hu]
    ring
  · rw [hup]
    unfold updateUnfinished
    rw [listGetD_zipWith _ 0 0 0 unfinished r.tokens i hi hit, hu, zero_mul]

/-- Witness for C9: a finished replica (`unfinished = 0`) receives the eos
token 9 as padding on the next step and stays finished. -/
theorem C9_pad_falls_back_to_eos_witness :
    resolvePadTokenId Option.none (some [9]) = some 9 ∧
    ([9] : List ℤ).getD 0 0 = 9 ∧ ([0] : List ℤ).getD 0 0 = 0:=
  C9_pad_falls_back_to_eos envW rngW cfgW [] 9 [] 0 1 0 [[7]] [0]
    { tokens := [9], token_logprobs := [5 + 1 / 10 ^ 7],
      top_tokens := [[]], top_logprobs := [[]], status := [0] }
    [[7, 9]] [0] 0 rfl (by decide) (by decide) (by decide)

/-! ## Claim C6 -/

/-- In deterministic mode token selection is arg-max, independent of the
entropy source. -/
lemma chooseTokens_det (config : GenConfig)
    (h : deterministicMode config = true) (rng : Rng) (si : Nat)
    (probs : List (List ℚ)) :
    chooseTokens config rng si probs = probs.map argmaxIdx := by
  simp [chooseTokens, h]

/-- In deterministic mode one decode step does not depend on the entropy
source. -/
lemma genStep_rng_irrel (env : ModelEnv) (rng₁ rng₂ : Rng)
    (config : GenConfig) (procs : List ProcTag) (padId : Option ℤ)
    (eosIds : Option (List ℤ)) (k il si : Nat) (history : List (List ℤ))
    (unfinished : List ℤ) (h : deterministicMode config = true) :
    genStep env rng₁ config procs padId eosIds k il si history unfinished =
      genStep env rng₂ config procs padId eosIds k il si history
        unfinished := by
  unfold genStep
  cases hfw : (infer fun att => env.fwd si att history).1 with
  | error e => rfl
  | ok raw => simp only [chooseTokens_det config h]

/-- In deterministic mode the whole decode loop does not depend on the
entropy source. -/
lemma genLoop_rng_irrel (env : ModelEnv) (rng₁ rng₂ : Rng)
    (config : GenConfig) (procs : List ProcTag) (padId : Option ℤ)
    (eosIds : Option (List ℤ)) (k il : Nat)
    (h : deterministicMode config = true) :
    ∀ (fuel si : Nat) (history : List (List ℤ)) (unfinished : List ℤ),
      genLoop env rng₁ config procs padId eosIds k il fuel si history
          unfinished =
        genLoop env rng₂ config procs padId eosIds k il fuel si history
          unfinished := by
  intro fuel
  induction fuel with
  | zero => intro si history unfinished; rfl
  | succ f ih =>
    intro si history unfinished
    simp only [genLoop]
    rw [genStep_rng_irrel env rng₁ rng₂ config procs padId eosIds k il si
      history unfinished h]
    cases hstep : genStep env rng₂ config procs padId eosIds k il si history
        unfinished with
    | error e => rfl
    | ok tpl =>
      obtain ⟨r, h', u'⟩ := tpl
      by_cases hsm : statusMax r.status ≤ 0
      · simp [hsm]
      · simp only [if_neg hsm]
        rw [ih (si + 1) h' u']

/-- C6: with `temperature ≤ 0` or `top_p ≤ 0` the sampler takes the arg-max
of the softmax distribution instead of drawing from the entropy source, so
two calls with identical prompt, configuration and model produce identical
results whatever their random draws, both at the `generate` level and at the
`__call__` level. -/
theorem C6_deterministic_argmax (env : ModelEnv) (rng₁ rng₂ : Rng)
    (input_ids : List (List ℤ)) (k : Nat) (minN maxN : ℤ) (t p : ℚ)
    (hdet : t ≤ 0 ∨ p ≤ 0) :
    (∀ (si : Nat) (probs : List (List ℚ)),
      chooseTokens (env.genConfig.update minN maxN t p) rng₁ si probs =
        probs.map argmaxIdx) ∧
    generate env rng₁ input_ids k minN maxN t p =
      generate env rng₂ input_ids k minN maxN t p ∧
    (∀ (dec : DecoderEnv) (prompt : Prompt) (minT maxT n lp : ℤ)
      (echo : Bool),
      callBody env dec rng₁ prompt minT maxT t p n lp echo =
        callBody env dec rng₂ prompt minT maxT t p n lp echo) := by
  have hmode : ∀ (mN mX : ℤ),
      deterministicMode (env.genConfig.update mN mX t p) = true := by
    intro mN mX
    unfold deterministicMode GenConfig.update
    rcases hdet with h | h
    · simp [h]
    · simp [h]
  have hgeneq : ∀ (inp : List (List ℤ)) (k' : Nat) (mN mX : ℤ),
      generate env rng₁ inp k' mN mX t p =
        generate env rng₂ inp k' mN mX t p := by
    intro inp k' mN mX
    unfold generate
    cases henc : env.isEncoderDecoder
    · simp only [Bool.false_eq_true, if_false]
      exact genLoop_rng_irrel env rng₁ rng₂ _ _ _ _ _ _ (hmode mN mX) _ _ _ _
    · simp only [if_true]
      cases hencres : (infer fun att => env.encFwd att
          (seedInputIds inp
            ((env.genConfig.update mN mX t p).eos_token_id.norm)).1).1 with
      | error e => rfl
      | ok u =>
        exact genLoop_rng_irrel env rng₁ rng₂ _ _ _ _ _ _ (hmode mN mX) _ _ _ _
  refine ⟨fun si probs => chooseTokens_det _ (hmode minN maxN) rng₁ si probs,
    hgeneq input_ids k minN maxN, ?_⟩
  intro dec prompt minT maxT n lp echo
  unfold callBody
  cases hpi : promptInputIds env prompt with
  | error e => rfl
  | ok ids =>
    simp only
    rw [hgeneq (List.replicate (max n 1).toNat ids) (max lp 0).toNat
      (max minT 0) (max maxT 1)]

/-- Witness for C6: the concrete environment run twice with different entropy
sources yields identical streams when temperature is 0. -/
theorem C6_deterministic_argmax_witness :
    generate envW rngW [[7]] 0 0 2 0 1 = generate envW rngW2 [[7]] 0 0 2 0 1 :=
  (C6_deterministic_argmax envW rngW rngW2 [[7]] 0 0 2 0 1
    (Or.inl le_rfl)).2.1

/-! ## Claim C7 -/

/-- The eos-mismatch count is never negative. -/
lemma notEosCount_nonneg (eos : List ℤ) (t : ℤ) : 0 ≤ notEosCount eos t := by
  unfold notEosCount
  have h : ∀ (l : List ℤ) (a : ℤ), 0 ≤ a →
      0 ≤ l.foldl (fun acc e => acc + if t ≠ e then 1 else 0) a := by
    intro l
    induction l with
    | nil => intro a ha; exact ha
    | cons x xs ih =>
      intro a ha
      refine ih (a + if t ≠ x then 1 else 0) ?_
      split_ifs <;> omega
  exact h eos 0 le_rfl

/-- The `unfinished` vector stays entrywise non-negative across the eos
update. -/
lemma updateUnfinished_nonneg (eosIds : Option (List ℤ)) :
    ∀ (us ts : List ℤ), (∀ u ∈ us, 0 ≤ u) →
      ∀ x ∈ updateUnfinished eosIds us ts, 0 ≤ x := by
  cases eosIds with
  | none => intro us ts hus x hx; exact hus x hx
  | some eos =>
    intro us
    induction us with
    | nil => intro ts hus x hx; simp [updateUnfinished] at hx
    | cons u us ih =>
      intro ts hus x hx
      cases ts with
      | nil => simp [updateUnfinished] at hx
      | cons t ts =>
        simp only [updateUnfinished, List.zipWith_cons_cons,
          List.mem_cons] at hx
        rcases hx with hx | hx
        · subst hx
          exact mul_nonneg (hus u (by simp)) (notEosCount_nonneg eos t)
        · exact ih ts (fun y hy => hus y (by simp [hy])) x
            (by simpa [updateUnfinished] using hx)

/-- A decode step whose forward pass succeeds returns a step result. -/
lemma genStep_isOk (env : ModelEnv) (rng : Rng) (config : GenConfig)
    (procs : List ProcTag) (padId : Option ℤ) (eosIds : Option (List ℤ))
    (k il si : Nat) (history : List (List ℤ)) (unfinished : List ℤ)
    (raw : List (List ℚ))
    (hfw : (infer (fun att => env.fwd si att history)).1 = .ok raw) :
    ∃ out, genStep env rng config procs padId eosIds k il si history
      unfinished = .ok out := by
  simp only [genStep, hfw]
  exact ⟨_, rfl⟩

/-- The loop stops after a step whose status vector is entirely
non-positive. -/
lemma genLoop_one_step (env : ModelEnv) (rng : Rng) (config : GenConfig)
    (procs : List ProcTag) (padId : Option ℤ) (eosIds : Option (List ℤ))
    (k il fuel si : Nat) (history : List (List ℤ)) (unfinished : List ℤ)
    (r : StepResult) (h' : List (List ℤ)) (u' : List ℤ)
    (hok : genStep env rng config procs padId eosIds k il si history
      unfinished = .ok (r, h', u'))
    (hsm : statusMax r.status ≤ 0) :
    genLoop env rng config procs padId eosIds k il (fuel + 1) si history
      unfinished = ([r], none) := by
  simp only [genLoop, hok, if_pos hsm]

/-- A batch of empty rows has zero input length. -/
lemma histLen_replicate_nil (n : Nat) :
    histLen (List.replicate n ([] : List ℤ)) = 0 := by
  cases n <;> simp [histLen, List.replicate_succ]

/-- The choices emitted by one step for a single fresh replica: exactly
one. -/
lemma stepChoices_fresh_len (env : ModelEnv) (dec : DecoderEnv) (lp : Nat)
    (consumed : List (List ℤ)) (r : StepResult) :
    ((stepChoices env dec 1 lp (List.replicate 1 none) consumed r).2.2).length
      = 1 := by
  have h1 : List.range 1 = [0] := rfl
  simp [stepChoices, h1]

/-- C7: a zero-length prompt is seeded with one token per replica — the first
configured eos id if any, otherwise the placeholder 1 — and the input length
becomes 1; with `max_tokens = 1` the generator emits exactly one step and the
orchestrator emits exactly one generated choice for `n = 1`. -/
theorem C7_empty_prompt_seeding (env : ModelEnv) (dec : DecoderEnv)
    (rng : Rng) (k n : Nat) (minN minT lp : ℤ) (t p : ℚ) (e : ℤ)
    (es : List ℤ) (L : List (List ℚ))
    (henc : env.isEncoderDecoder = false)
    (heos : env.genConfig.eos_token_id.norm = some (e :: es))
    (hfwd : ∀ (att : Nat) (h : List (List ℤ)), env.fwd 0 att h = .ok L) :
    (∀ (ids : List (List ℤ)) (eos : Option (List ℤ)), histLen ids = 0 →
      seedInputIds ids eos =
        (List.replicate ids.length [seedToken eos], 1)) ∧
    seedToken (some (e :: es)) = e ∧
    seedToken Option.none = 1 ∧
    seedInputIds (List.replicate n ([] : List ℤ)) (some (e :: es)) =
      (List.replicate n [e], 1) ∧
    (∃ r, generate env rng (List.replicate n ([] : List ℤ)) k minN 1 t p =
      ([r], none)) ∧
    (∃ cs, callBody env dec rng (Prompt.tensor1 []) minT 1 t p 1 lp false =
      .ok (cs, none) ∧ cs.length = 1) := by
  have hgen : ∀ (n' k' : Nat) (mN : ℤ),
      ∃ r, generate env rng (List.replicate n' ([] : List ℤ)) k' mN 1 t p =
        ([r], none) := by
    intro n' k' mN
    have heq : (env.genConfig.update mN 1 t p).eos_token_id.norm =
        some (e :: es) := heos
    have hseed : seedInputIds (List.replicate n' ([] : List ℤ))
        ((env.genConfig.update mN 1 t p).eos_token_id.norm) =
        (List.replicate n' [e], 1) := by
      rw [heq]
      unfold seedInputIds
      rw [if_pos (histLen_replicate_nil n')]
      simp [seedToken]
    have hinfer : (infer (fun att =>
        env.fwd 0 att (List.replicate n' [e]))).1 = .ok L := by
      simp only [infer, retryGo, hfwd]
    obtain ⟨out, hok⟩ := genStep_isOk env rng (env.genConfig.update mN 1 t p)
      (logits_processor (env.genConfig.update mN 1 t p) 1)
      (resolvePadTokenId (env.genConfig.update mN 1 t p).pad_token_id
        ((env.genConfig.update mN 1 t p).eos_token_id.norm))
      ((env.genConfig.update mN 1 t p).eos_token_id.norm) k' 1 0
      (List.replicate n' [e]) (List.replicate n' 1) L hinfer
    obtain ⟨r, h', u'⟩ := out
    obtain ⟨raw, hfw2, htok, hlp2, htop, hh, hup, hst⟩ :=
      genStep_ok_elim env rng (env.genConfig.update mN 1 t p) _ _ _ k' 1 0
        (List.replicate n' [e]) (List.replicate n' 1) r h' u' hok
    have hnonneg : ∀ x ∈ u', 0 ≤ x := by
      rw [hup]
      exact updateUnfinished_nonneg _ (List.replicate n' 1) r.tokens
        (fun u hu => by
          have := List.eq_of_mem_replicate hu
          omega)
    have hsm : statusMax r.status ≤ 0 := by
      rw [hst]
      by_cases hcap : lengthCapReached (env.genConfig.update mN 1 t p) 1 h'
      · rw [if_pos hcap]
        refine statusMax_nonpos _ ?_
        intro x hx
        obtain ⟨y, hy, rfl⟩ := List.mem_map.mp hx
        have := hnonneg y hy
        omega
      · rw [if_neg hcap]
        refine statusMax_nonpos _ ?_
        intro x hx
        exfalso
        -- the cap can only fail when the step appended nothing, in which
        -- case the updated unfinished vector is empty
        rw [hup, heq] at hx
        rcases n' with _ | n''
        · simp [updateUnfinished] at hx
        · cases hx2 : r.tokens with
          | nil =>
            rw [hx2] at hx
            simp [updateUnfinished] at hx
          | cons t0 ts =>
            apply hcap
            rw [hh, hx2, List.replicate_succ]
            unfold lengthCapReached histLen
            simp [GenConfig.update]
    refine ⟨r, ?_⟩
    simp only [generate, henc, Bool.false_eq_true, if_false]
    rw [hseed]
    dsimp only
    rw [List.length_replicate]
    exact genLoop_one_step env rng _ _ _ _ k' 1 _ 0 _ _ r h' u' hok hsm
  refine ⟨?_, rfl, rfl, ?_, hgen n k minN, ?_⟩
  · intro ids eos hlen
    unfold seedInputIds
    rw [if_pos hlen]
  · unfold seedInputIds
    rw [if_pos (histLen_replicate_nil n)]
    simp [seedToken]
  · obtain ⟨r, hr⟩ := hgen 1 (max lp 0).toNat (max minT 0)
    unfold callBody
    simp only [promptInputIds]
    have hmax : (max (1 : ℤ) 1).toNat = 1 := rfl
    rw [hmax]
    have hmax2 : max (1 : ℤ) 1 = 1 := rfl
    rw [hmax2, hr]
    refine ⟨_, rfl, ?_⟩
    simp only [List.foldl_cons, List.foldl_nil, echoChoices]
    rw [List.nil_append]
    simp only [List.length_append]
    rw [stepChoices_fresh_len]
    rfl

/-- Witness for C7: with eos id 3 the empty prompt is seeded as `[[3]]` with
input length 1. -/
theorem C7_empty_prompt_seeding_witness :
    seedInputIds (List.replicate 1 ([] : List ℤ)) (some [3]) = ([[3]], 1) :=
  (C7_empty_prompt_seeding envC7 decW rngW 0 1 0 0 0 1 1 3 []
    [[0, 0, 5, 0, 0, 0, 0, 0, 0, 0]] rfl rfl (fun _ _ => rfl)).2.2.2.1

/-! ## Claims C5 and C10 -/

/-- Inserting under a fresh key appends; the head of the dict is untouched
when its key differs from the inserted one. -/
lemma dinsert_cons_ne {κ : Type} [DecidableEq κ] (hd : κ × ℚ)
    (tl : List (κ × ℚ)) (k : κ) (v : ℚ) (h : ¬hd.1 = k) :
    dinsert (hd :: tl) k v = hd :: dinsert tl k v := by
  unfold dinsert
  rw [List.any_cons]
  by_cases h2 : tl.any (fun kv => kv.1 = k) <;> simp [h, h2]

/-- Inserting a key always makes it look up to the inserted value
(overwrite-or-append, Python `d[k] = v`). -/
lemma dlookup_dinsert_self {κ : Type} [DecidableEq κ] :
    ∀ (d : List (κ × ℚ)) (k : κ) (v : ℚ),
      dlookup (dinsert d k v) k = some v := by
  intro d k v
  induction d with
  | nil => simp [dinsert, dlookup]
  | cons hd tl ih =>
    by_cases hk : hd.1 = k
    · have hany : (hd :: tl).any (fun kv => kv.1 = k) = true := by
        simp [List.any_cons, hk]
      unfold dinsert
      rw [if_pos hany, List.map_cons, if_pos hk]
      simp [dlookup]
    · rw [dinsert_cons_ne hd tl k v hk]
      unfold dlookup
      rw [List.find?_cons_of_neg _ (by simp [hk])]
      exact ih

/-- Every entry of `dinsert d k v` is an entry of `d` or the inserted
pair. -/
lemma mem_dinsert {κ : Type} [DecidableEq κ] (d : List (κ × ℚ)) (k : κ)
    (v : ℚ) (pr : κ × ℚ) (hpr : pr ∈ dinsert d k v) :
    pr ∈ d ∨ pr = (k, v) := by
  unfold dinsert at hpr
  split_ifs at hpr with h
  · obtain ⟨kv, hkv, he⟩ := List.mem_map.mp hpr
    by_cases hk : kv.1 = k
    · right; rw [← he, if_pos hk]
    · left; rw [← he, if_neg hk]; exact hkv
  · rcases List.mem_append.mp hpr with h1 | h1
    · exact Or.inl h1
    · right; simpa using h1

/-- Every entry of the dict built from a pair list is one of the pairs. -/
lemma mem_dictOfPairs {κ : Type} [DecidableEq κ] :
    ∀ (ps d : List (κ × ℚ)) (pr : κ × ℚ),
      pr ∈ ps.foldl (fun d kv => dinsert d kv.1 kv.2) d →
        pr ∈ d ∨ pr ∈ ps := by
  intro ps
  induction ps with
  | nil => intro d pr hpr; exact Or.inl hpr
  | cons a ps ih =>
    intro d pr hpr
    rcases ih (dinsert d a.1 a.2) pr hpr with h1 | h1
    · rcases mem_dinsert d a.1 a.2 pr h1 with h2 | h2
      · exact Or.inl h2
      · right; rw [h2]; simp
    · right; simp [h1]

/-- The keys of an insertion: unchanged on overwrite, appended on a fresh
key. -/
lemma keys_dinsert {κ : Type} [DecidableEq κ] (d : List (κ × ℚ)) (k : κ)
    (v : ℚ) :
    (dinsert d k v).map Prod.fst =
      if k ∈ d.map Prod.fst then d.map Prod.fst
      else d.map Prod.fst ++ [k] := by
  unfold dinsert
  by_cases h : d.any (fun kv => kv.1 = k)
  · have hk : k ∈ d.map Prod.fst := by
      obtain ⟨kv, hkv, he⟩ := List.any_eq_true.mp h
      exact List.mem_map.mpr ⟨kv, hkv, of_decide_eq_true he⟩
    rw [if_pos h, if_pos hk, List.map_map]
    refine List.map_congr_left ?_
    intro kv hkv
    by_cases he : kv.1 = k
    · simp [he]
    · simp [he]
  · have hk : k ∉ d.map Prod.fst := by
      intro hmem
      obtain ⟨kv, hkv, he⟩ := List.mem_map.mp hmem
      exact h (List.any_eq_true.mpr ⟨kv, hkv, decide_eq_true he⟩)
    rw [if_neg h, if_neg hk, List.map_append]
    rfl

/-- Key membership after an insertion. -/
lemma mem_keys_dinsert {κ : Type} [DecidableEq κ] (d : List (κ × ℚ))
    (k : κ) (v : ℚ) (x : κ) :
    x ∈ (dinsert d k v).map Prod.fst ↔ x ∈ d.map Prod.fst ∨ x = k := by
  rw [keys_dinsert]
  split_ifs with h
  · constructor
    · exact Or.inl
    · rintro (hx | rfl)
      · exact hx
      · exact h
  · simp [List.mem_append]

/-- Insertion preserves distinctness of keys. -/
lemma nodup_keys_dinsert {κ : Type} [DecidableEq κ] (d : List (κ × ℚ))
    (k : κ) (v : ℚ) (h : (d.map Prod.fst).Nodup) :
    ((dinsert d k v).map Prod.fst).Nodup := by
  rw [keys_dinsert]
  split_ifs with hk
  · exact h
  · refine List.Nodup.append h (List.nodup_singleton k) ?_
    intro x hx hx2
    rw [List.mem_singleton] at hx2
    subst hx2
    exact hk hx

/-- Key membership in the dict built from a pair list. -/
lemma mem_keys_dictOfPairs {κ : Type} [DecidableEq κ] :
    ∀ (ps d : List (κ × ℚ)) (x : κ),
      (x ∈ (ps.foldl (fun d kv => dinsert d kv.1 kv.2) d).map Prod.fst ↔
        x ∈ d.map Prod.fst ∨ x ∈ ps.map Prod.fst) := by
  intro ps
  induction ps with
  | nil => intro d x; simp
  | cons a ps ih =>
    intro d x
    rw [List.foldl_cons, ih (dinsert d a.1 a.2) x, mem_keys_dinsert]
    simp only [List.map_cons, List.mem_cons]
    tauto

/-- The dict built from a pair list has distinct keys. -/
lemma nodup_keys_dictOfPairs {κ : Type} [DecidableEq κ] :
    ∀ (ps d : List (κ × ℚ)), (d.map Prod.fst).Nodup →
      ((ps.foldl (fun d kv => dinsert d kv.1 kv.2) d).map Prod.fst).Nodup := by
  intro ps
  induction ps with
  | nil => intro d h; exact h
  | cons a ps ih =>
    intro d h
    exact ih (dinsert d a.1 a.2) (nodup_keys_dinsert d a.1 a.2 h)

/-- C5 (counterexample): the alternatives map of `sample` is keyed by decoded
text, not token id. With a tokenizer decoding every id to the same text and
`k = 2`, the map holds a single entry, whereas merging the chosen token's
(id → log-probability) pair into an id-keyed top-k map, as the claim states,
yields three. -/
theorem C5_counterexample :
    (sample (fun _ => "x") 3 0 [1, 2] [0, 0]).top_logprobs.length = 1 ∧
    (sampleSpecIdKeyed 3 0 [1, 2] [0, 0]).length = 3 ∧
    (1 : Nat) ≠ 3 :=
  ⟨rfl, rfl, by decide⟩

/-- C5 (amended): when diagnostics are requested, the chosen token's log
probability is computed in `generate` as `log(p + 1e-7)` on its softmax
probability (likewise for the top-k bundle); `sample` rounds every log
probability in the returned bundle to 8 decimal digits; and the chosen
token's (decoded-text → log-probability) pair is merged into the text-keyed
top-k map, so the selected token's text is always present in the
alternatives map even when it falls outside the top-k window. -/
theorem C5_logprob_diagnostics_amended (decode : ℤ → String) (token : ℤ)
    (tlp : ℚ) (tops : List ℤ) (lps : List ℚ) (env : ModelEnv) (rng : Rng)
    (config : GenConfig) (procs : List ProcTag) (padId : Option ℤ)
    (eosIds : Option (List ℤ)) (k il si : Nat) (history : List (List ℤ))
    (unfinished : List ℤ) (r : StepResult) (h' : List (List ℤ))
    (u' : List ℤ)
    (hok : genStep env rng config procs padId eosIds k il si history
      unfinished = .ok (r, h', u')) :
    (sample decode token tlp tops lps).token_logprob = round8 tlp ∧
    (∀ pr ∈ (sample decode token tlp tops lps).top_logprobs,
      ∃ x ∈ tlp :: lps, pr.2 = round8 x) ∧
    dlookup (sample decode token tlp tops lps).top_logprobs (decode token) =
      some (round8 tlp) ∧
    (∃ raw, (infer (fun att => env.fwd si att history)).1 = .ok raw ∧
      r.token_logprobs = (stepProbs env procs history raw).zipWith
        (fun ps c => env.log (ps.getD c 0 + 1 / 10 ^ 7))
        (chooseTokens config rng si (stepProbs env procs history raw)) ∧
      r.top_logprobs = ((stepProbs env procs history raw).map (topk k)).map
        (fun tp2 => tp2.1.map (fun v => env.log (v + 1 / 10 ^ 7)))) := by
  refine ⟨rfl, ?_, ?_, ?_⟩
  · intro pr hpr
    unfold sample at hpr
    simp only at hpr
    rcases mem_dinsert _ _ _ pr hpr with h1 | h1
    · rcases mem_dictOfPairs _ [] pr h1 with h2 | h2
      · simp at h2
      · have h3 := (List.of_mem_zip h2).2
        obtain ⟨x, hx, hxe⟩ := List.mem_map.mp h3
        exact ⟨x, by simp [hx], hxe.symm⟩
    · exact ⟨tlp, by simp, by rw [h1]⟩
  · unfold sample
    simp only
    exact dlookup_dinsert_self _ _ _
  · obtain ⟨raw, hfw, htok, hlp2, htop, hh, hup, hst⟩ :=
      genStep_ok_elim env rng config procs padId eosIds k il si history
        unfinished r h' u' hok
    exact ⟨raw, hfw, hlp2, htop⟩

/-- Witness for the amended C5: the chosen token's decoded text is present in
the alternatives map with its rounded log probability. -/
theorem C5_logprob_diagnostics_amended_witness :
    dlookup (sample (fun _ => "x") 3 (-1 / 2) [1, 2] [0, 0]).top_logprobs
      ((fun (_ : ℤ) => "x") 3) = some (round8 (-1 / 2)) :=
  (C5_logprob_diagnostics_amended (fun _ => "x") 3 (-1 / 2) [1, 2] [0, 0]
    envW rngW cfgW [] Option.none Option.none 0 1 0 [[7]] [1]
    { tokens := [2], token_logprobs := [5 + 1 / 10 ^ 7],
      top_tokens := [[]], top_logprobs := [[]], status := [1] }
    [[7, 2]] [1] rfl).2.2.1

/-- C10: the alternatives map returned by `sample` is keyed by decoded token
text: every key is a decoded text, the chosen token's text maps to its
rounded log probability (overwriting any colliding top-k entry), the number
of entries is the number of distinct decoded texts among the top-k tokens and
the chosen token, and with colliding decodings the map holds strictly fewer
than k + 1 entries. -/
theorem C10_text_keyed_alternatives (decode : ℤ → String) (token : ℤ)
    (tlp : ℚ) (tops : List ℤ) (lps : List ℚ)
    (h : tops.length = lps.length) :
    (∀ pr ∈ (sample decode token tlp tops lps).top_logprobs,
      pr.1 ∈ tops.map decode ∨ pr.1 = decode token) ∧
    dlookup (sample decode token tlp tops lps).top_logprobs (decode token) =
      some (round8 tlp) ∧
    (sample decode token tlp tops lps).top_logprobs.length =
      (tops.map decode ++ [decode token]).toFinset.card ∧
    (sample (fun _ => "x") 5 0 [1, 2] [0, 0]).top_logprobs.length < 2 + 1 := by
  have hmemkeys : ∀ x,
      x ∈ (sample decode token tlp tops lps).top_logprobs.map Prod.fst ↔
        x ∈ tops.map decode ∨ x = decode token := by
    intro x
    unfold sample
    simp only
    rw [mem_keys_dinsert]
    unfold dictOfPairs
    rw [mem_keys_dictOfPairs]
    have hfst : ((tops.map decode).zip (lps.map round8)).map Prod.fst =
        tops.map decode := by
      refine List.map_fst_zip _ _ ?_
      simp [h]
    rw [hfst]
    simp
  refine ⟨?_, ?_, ?_, by decide⟩
  · intro pr hpr
    unfold sample at hpr
    simp only at hpr
    rcases mem_dinsert _ _ _ pr hpr with h1 | h1
    · rcases mem_dictOfPairs _ [] pr h1 with h2 | h2
      · simp at h2
      · exact Or.inl (List.of_mem_zip h2).1
    · exact Or.inr (by rw [h1])
  · unfold sample
    simp only
    exact dlookup_dinsert_self _ _ _
  · have hnodup : ((sample decode token tlp tops
        lps).top_logprobs.map Prod.fst).Nodup := by
      unfold sample
      simp only
      exact nodup_keys_dinsert _ _ _
        (nodup_keys_dictOfPairs _ [] (by simp))
    have hseteq : ((sample decode token tlp tops
        lps).top_logprobs.map Prod.fst).toFinset =
        (tops.map decode ++ [decode token]).toFinset := by
      ext x
      rw [List.mem_toFinset, List.mem_toFinset, hmemkeys]
      simp [List.mem_append]
    calc (sample decode token tlp tops lps).top_logprobs.length
        = ((sample decode token tlp tops
            lps).top_logprobs.map Prod.fst).length := by
          rw [List.length_map]
      _ = ((sample decode token tlp tops
            lps).top_logprobs.map Prod.fst).toFinset.card := by
          rw [List.toFinset_card_of_nodup hnodup]
      _ = (tops.map decode ++ [decode token]).toFinset.card := by
          rw [hseteq]

/-- Witness for C10: with two distinct top-k ids decoding to the same text as
the chosen token, the map collapses to a single entry. -/
theorem C10_text_keyed_alternatives_witness :
    (sample (fun _ => "x") 7 0 [1, 2] [0, 0]).top_logprobs.length =
      (([1, 2].map (fun (_ : ℤ) => "x") ++
        [(fun (_ : ℤ) => "x") 7]) : List String).toFinset.card :=
  (C10_text_keyed_alternatives (fun _ => "x") 7 0 [1, 2] [0, 0] rfl).2.2.1

/-! ## Claim C2 -/

/-- One finish-reason update produces a vector of length `n`. -/
lemma updateFR_length (n : Nat) (fr : List (Option FinishReason))
    (status : List ℤ) : (updateFR n fr status).length = n := by
  simp [updateFR]

/-- Entry `i` of the array of the positions `0..n-1`. -/
lemma range_getD (n i : Nat) (hi : i < n) : (List.range n).getD i 0 = i := by
  rw [List.getD_eq_getElem?_getD, List.getElem?_range hi]
  rfl

/-- Entrywise characterization of one finish-reason update. -/
lemma updateFR_getD (n : Nat) (fr : List (Option FinishReason))
    (status : List ℤ) (i : Nat) (hi : i < n) :
    (updateFR n fr status).getD i none =
      (match fr.getD i none with
       | some r => some r
       | none =>
         if status.getD i 1 = 0 then some FinishReason.stop
         else if status.getD i 1 = -1 then some FinishReason.length
         else none) := by
  unfold updateFR
  rw [listGetD_map _ (List.range n) 0 none i (by simpa using hi),
    range_getD n i hi]

/-- A set finish reason survives one update unchanged. -/
lemma updateFR_stable (n : Nat) (fr : List (Option FinishReason))
    (status : List ℤ) (i : Nat) (r : FinishReason) (hi : i < n)
    (h : fr.getD i none = some r) :
    (updateFR n fr status).getD i none = some r := by
  rw [updateFR_getD n fr status i hi, h]

/-- The initial finish-reason array is all-unset. -/
lemma replicate_getD_none (n i : Nat) :
    (List.replicate n (none : Option FinishReason)).getD i none = none := by
  induction n generalizing i with
  | zero => rfl
  | succ m ih =>
    cases i with
    | zero => rfl
    | succ j => exact ih j

/-- Unfolding one step of the finish-reason trace. -/
lemma frAt_succ (n : Nat) (statuses : List (List ℤ)) (t : Nat)
    (ht : t < statuses.length) :
    frAt n statuses (t + 1) =
      updateFR n (frAt n statuses t) (statuses.getD t []) := by
  unfold frAt
  rw [List.take_succ, List.foldl_append]
  have hel : statuses[t]? = some (statuses.getD t []) := by
    rw [List.getElem?_eq_getElem ht]
    congr 1
    rw [List.getD_eq_getElem?_getD, List.getElem?_eq_getElem ht]
    rfl
  rw [hel]
  rfl

/-- The trace is frozen beyond the end of the status stream. -/
lemma frAt_freeze (n : Nat) (statuses : List (List ℤ)) (t : Nat)
    (ht : statuses.length ≤ t) :
    frAt n statuses (t + 1) = frAt n statuses t := by
  unfold frAt
  rw [List.take_of_length_le (by omega), List.take_of_length_le ht]

/-- The finish-reason trace keeps length `n` forever. -/
lemma frAt_length (n : Nat) (statuses : List (List ℤ)) :
    ∀ t, (frAt n statuses t).length = n := by
  have haux : ∀ (l : List (List ℤ)) (init : List (Option FinishReason)),
      init.length = n → (l.foldl (updateFR n) init).length = n := by
    intro l
    induction l with
    | nil => intro init h; exact h
    | cons st l ih =>
      intro init _
      exact ih (updateFR n init st) (updateFR_length n init st)
  intro t
  exact haux (statuses.take t) (List.replicate n none) (by simp)

/-- A finish reason, once set, persists through every later trace state. -/
lemma frAt_mono (n : Nat) (statuses : List (List ℤ)) (i : Nat)
    (r : FinishReason) (hi : i < n) :
    ∀ t u, t ≤ u → (frAt n statuses t).getD i none = some r →
      (frAt n statuses u).getD i none = some r := by
  intro t u htu h
  induction u, htu using Nat.le_induction with
  | base => exact h
  | succ u hu ih =>
    by_cases hlen : u < statuses.length
    · rw [frAt_succ n statuses u hlen]
      exact updateFR_stable n _ _ i r hi ih
    · rw [frAt_freeze n statuses u (by omega)]
      exact ih

/-- The replica's reason is unset after `t` steps exactly when every status
it received so far was 1. -/
lemma frAt_none_iff (n : Nat) (statuses : List (List ℤ)) (i : Nat)
    (hi : i < n)
    (hval : ∀ st ∈ statuses, st.getD i 1 = 1 ∨ st.getD i 1 = 0 ∨
      st.getD i 1 = -1) :
    ∀ t, t ≤ statuses.length →
      ((frAt n statuses t).getD i none = none ↔
        ∀ s, s < t → (statuses.getD s []).getD i 1 = 1) := by
  intro t
  induction t with
  | zero =>
    intro _
    constructor
    · intro _ s hs; omega
    · intro _
      unfold frAt
      exact replicate_getD_none n i
  | succ t ih =>
    intro ht
    have ht' : t < statuses.length := by omega
    have hmem : statuses.getD t [] ∈ statuses := by
      have : statuses.getD t [] = statuses[t] := by
        rw [List.getD_eq_getElem?_getD, List.getElem?_eq_getElem ht']
        rfl
      rw [this]
      exact List.getElem_mem ht'
    rw [frAt_succ n statuses t ht', updateFR_getD n _ _ i hi]
    cases hcur : (frAt n statuses t).getD i none with
    | some r =>
      simp only
      constructor
      · intro hfalse; exact absurd hfalse (by simp)
      · intro hall
        have h2 := (ih (by omega)).mpr (fun s hs => hall s (by omega))
        rw [hcur] at h2
        cases h2
    | none =>
      simp only
      constructor
      · intro hnone s hs
        rcases Nat.lt_succ_iff_lt_or_eq.mp hs with hs' | rfl
        · exact (ih (by omega)).mp hcur s hs'
        · rcases hval (statuses.getD s []) hmem with h1 | h1 | h1
          · exact h1
          · rw [h1] at hnone; simp at hnone
          · rw [h1] at hnone
            norm_num at hnone
            exact Option.noConfusion hnone
      · intro hall
        have h1 := hall t (by omega)
        rw [h1]
        norm_num

/-- The first stopping signal sets the reason determined by the status
code. -/
lemma frAt_first_signal (n : Nat) (statuses : List (List ℤ)) (i : Nat)
    (hi : i < n) (t : Nat) (ht : t < statuses.length)
    (hnone : (frAt n statuses t).getD i none = none) :
    ((statuses.getD t []).getD i 1 = 0 →
      (frAt n statuses (t + 1)).getD i none = some FinishReason.stop) ∧
    ((statuses.getD t []).getD i 1 = -1 →
      (frAt n statuses (t + 1)).getD i none = some FinishReason.length) := by
  rw [frAt_succ n statuses t ht, updateFR_getD n _ _ i hi, hnone]
  constructor
  · intro h0; rw [h0]; simp
  · intro h1; rw [h1]; norm_num

/-- C2: the stream orchestrator creates a finish-reason array with exactly
`n` entries; the per-step update it applies is exactly `updateFR`; along any
status stream each replica's reason stays unset exactly while its statuses
are 1, is set to `stop` or `length` by the first status that signals a stop,
and once set is never recomputed or overwritten by any later step. -/
theorem C2_finish_reason_invariants (n : Nat) (statuses : List (List ℤ))
    (i : Nat) (hi : i < n)
    (hval : ∀ st ∈ statuses, st.getD i 1 = 1 ∨ st.getD i 1 = 0 ∨
      st.getD i 1 = -1) :
    (∀ (env : ModelEnv) (dec : DecoderEnv) (lp : Nat)
      (fr : List (Option FinishReason)) (consumed : List (List ℤ))
      (r : StepResult),
      (stepChoices env dec n lp fr consumed r).1 = updateFR n fr r.status) ∧
    (∀ t, (frAt n statuses t).length = n) ∧
    (∀ t u r, t ≤ u → (frAt n statuses t).getD i none = some r →
      (frAt n statuses u).getD i none = some r) ∧
    (∀ t, t ≤ statuses.length →
      ((frAt n statuses t).getD i none = none ↔
        ∀ s, s < t → (statuses.getD s []).getD i 1 = 1)) ∧
    (∀ t, t < statuses.length →
      (frAt n statuses t).getD i none = none →
      ((statuses.getD t []).getD i 1 = 0 →
        (frAt n statuses (t + 1)).getD i none = some FinishReason.stop) ∧
      ((statuses.getD t []).getD i 1 = -1 →
        (frAt n statuses (t + 1)).getD i none =
          some FinishReason.length)) := by
  refine ⟨fun env dec lp fr consumed r => rfl, frAt_length n statuses,
    fun t u r htu h => frAt_mono n statuses i r hi t u htu h,
    frAt_none_iff n statuses i hi hval, ?_⟩
  intro t ht hnone
  exact frAt_first_signal n statuses i hi t ht hnone

/-- Witness for C2: a replica that signals status 0 on the second step has
its reason set to `stop` there, never earlier. -/
theorem C2_finish_reason_invariants_witness :
    (frAt 1 [[1], [0]] 2).getD 0 none = some FinishReason.stop :=
  ((C2_finish_reason_invariants 1 [[1], [0]] 0 (by decide)
    (by decide)).2.2.2.2 1 (by decide) (by decide)).1 (by decide)

end Basaran
